import Mathlib

/-!
HMAC client: verification of the signing/verification core.

A shallow embedding of `hmac_client` (client.py, constants.py, exceptions.py):
HMAC-SHA256 signing and verification, in the stateless mode
(`sha256_sign`/`sha256_verify`) and the stateful mode (`sign256`/`verify256`),
together with the configuration validation, the input-size guard, and the
timestamp-tolerance check.

Modelling conventions:
- Python `bytes` are `List Nat` with entries below 256; Python `str` is
  `List Char`.
- Machine words in SHA-256 are `Nat` reduced modulo `2 ^ 32`.
- Fallible Python code is `Except PyError _`; a `try/except` block that maps
  every exception other than `InputTooLargeError` to `False` is the explicit
  wrapper `swallowAuthErrors`.
- The ambient clock (`datetime.datetime.now(datetime.timezone.utc)`) and the
  random nonce (`uuid.uuid4()`) are passed as explicit arguments `now` and
  `nonce`.
- `datetime` objects are the civil-field record `PyDatetime`; `isoformat` and
  `fromisoformat` are implemented over the RFC 3339 profile the client
  exchanges (fixed-width date and time fields, optional fractional seconds of
  three or six digits, optional `±HH:MM` offset); datetime subtraction is the
  difference of epoch microseconds, naive datetimes having none (subtracting
  a naive from an aware datetime raises in Python, which the model renders as
  `epochMicro = none`).
- The HTTP transport (`requests`), which the spec places out of scope, is
  not modelled; `base_url` and the session are dropped from the client state.
-/

set_option maxRecDepth 1000000

namespace HmacClient

/-! Section: SHA-256 and HMAC-SHA256 (the `hashlib`/`hmac` primitives) -/

/-- Truncate to a 32-bit word. -/
def w32 (n : Nat) : Nat := n % 4294967296

/-- Right rotation of a 32-bit word. -/
def rotr (n x : Nat) : Nat := w32 ((x >>> n) ||| (x <<< (32 - n)))

def bigS0 (x : Nat) : Nat := (rotr 2 x) ^^^ (rotr 13 x) ^^^ (rotr 22 x)

def bigS1 (x : Nat) : Nat := (rotr 6 x) ^^^ (rotr 11 x) ^^^ (rotr 25 x)

def smallS0 (x : Nat) : Nat := (rotr 7 x) ^^^ (rotr 18 x) ^^^ (x >>> 3)

def smallS1 (x : Nat) : Nat := (rotr 17 x) ^^^ (rotr 19 x) ^^^ (x >>> 10)

def chf (x y z : Nat) : Nat := (x &&& y) ^^^ ((x ^^^ 4294967295) &&& z)

def majf (x y z : Nat) : Nat := (x &&& y) ^^^ (x &&& z) ^^^ (y &&& z)

/-- SHA-256 round constants (FIPS 180-4). -/
def K256 : List Nat :=
  [1116352408, 1899447441, 3049323471, 3921009573, 961987163,
   1508970993, 2453635748, 2870763221, 3624381080, 310598401,
   607225278, 1426881987, 1925078388, 2162078206, 2614888103,
   3248222580, 3835390401, 4022224774, 264347078, 604807628,
   770255983, 1249150122, 1555081692, 1996064986, 2554220882,
   2821834349, 2952996808, 3210313671, 3336571891, 3584528711,
   113926993, 338241895, 666307205, 773529912, 1294757372,
   1396182291, 1695183700, 1986661051, 2177026350, 2456956037,
   2730485921, 2820302411, 3259730800, 3345764771, 3516065817,
   3600352804, 4094571909, 275423344, 430227734, 506948616,
   659060556, 883997877, 958139571, 1322822218, 1537002063,
   1747873779, 1955562222, 2024104815, 2227730452, 2361852424,
   2428436474, 2756734187, 3204031479, 3329325298]

/-- SHA-256 working state: eight 32-bit words. -/
structure St where
  a : Nat
  b : Nat
  c : Nat
  d : Nat
  e : Nat
  f : Nat
  g : Nat
  hh : Nat

def initSt : St :=
  ⟨1779033703, 3144134277, 1013904242, 2773480762,
   1359893119, 2600822924, 528734635, 1541459225⟩

/-- One compression round. -/
def round1 (s : St) (kw : Nat) : St :=
  let t1 := w32 (s.hh + bigS1 s.e + chf s.e s.f s.g + kw)
  let t2 := w32 (bigS0 s.a + majf s.a s.b s.c)
  ⟨w32 (t1 + t2), s.a, s.b, s.c, w32 (s.d + t1), s.e, s.f, s.g⟩

/-- Assemble big-endian 32-bit words from bytes (fuel keeps recursion structural). -/
def wordsOf : Nat → List Nat → List Nat
  | 0, _ => []
  | _, [] => []
  | fuel+1, b0 :: rest =>
    match rest with
    | b1 :: b2 :: b3 :: rest3 =>
      (b0 * 16777216 + b1 * 65536 + b2 * 256 + b3) :: wordsOf fuel rest3
    | _ => []

/-- Append the next entry of the message schedule. -/
def extendStep (w : List Nat) : List Nat :=
  let n := w.length
  w ++ [w32 (smallS1 (w.getD (n-2) 0) + w.getD (n-7) 0 + smallS0 (w.getD (n-15) 0) + w.getD (n-16) 0)]

/-- Extend a 16-word block to the 64-entry message schedule. -/
def schedule64 (w16 : List Nat) : List Nat :=
  (List.range 48).foldl (fun w _ => extendStep w) w16

/-- Compress one 64-byte block into the state. -/
def block1 (s : St) (blk : List Nat) : St :=
  let w := schedule64 (wordsOf 16 blk)
  let t := (K256.zip w).foldl (fun st p => round1 st (w32 (p.1 + p.2))) s
  ⟨w32 (s.a + t.a), w32 (s.b + t.b), w32 (s.c + t.c), w32 (s.d + t.d),
   w32 (s.e + t.e), w32 (s.f + t.f), w32 (s.g + t.g), w32 (s.hh + t.hh)⟩

/-- Split a byte list into 64-byte chunks (fuel keeps recursion structural). -/
def chunks64 : Nat → List Nat → List (List Nat)
  | 0, _ => []
  | _, [] => []
  | fuel+1, l => l.take 64 :: chunks64 fuel (l.drop 64)

/-- SHA-256 padding: `0x80`, zeros to 56 mod 64, 8-byte big-endian bit length. -/
def pad256 (msg : List Nat) : List Nat :=
  let len := msg.length
  let zeroes := (55 + 64 - len % 64) % 64
  let bitLen := len * 8
  msg ++ 128 :: List.replicate zeroes 0 ++
    [bitLen / 72057594037927936 % 256, bitLen / 281474976710656 % 256,
     bitLen / 1099511627776 % 256, bitLen / 4294967296 % 256,
     bitLen / 16777216 % 256, bitLen / 65536 % 256, bitLen / 256 % 256, bitLen % 256]

/-- Serialize the state to the 32 digest bytes, big-endian per word. -/
def stBytes (s : St) : List Nat :=
  [s.a / 16777216 % 256, s.a / 65536 % 256, s.a / 256 % 256, s.a % 256,
   s.b / 16777216 % 256, s.b / 65536 % 256, s.b / 256 % 256, s.b % 256,
   s.c / 16777216 % 256, s.c / 65536 % 256, s.c / 256 % 256, s.c % 256,
   s.d / 16777216 % 256, s.d / 65536 % 256, s.d / 256 % 256, s.d % 256,
   s.e / 16777216 % 256, s.e / 65536 % 256, s.e / 256 % 256, s.e % 256,
   s.f / 16777216 % 256, s.f / 65536 % 256, s.f / 256 % 256, s.f % 256,
   s.g / 16777216 % 256, s.g / 65536 % 256, s.g / 256 % 256, s.g % 256,
   s.hh / 16777216 % 256, s.hh / 65536 % 256, s.hh / 256 % 256, s.hh % 256]

/-- SHA-256 of a byte list (`hashlib.sha256(msg).digest()`). -/
def sha256 (msg : List Nat) : List Nat :=
  let padded := pad256 msg
  stBytes ((chunks64 (padded.length) padded).foldl block1 initSt)

/-- HMAC-SHA256 (`hmac.new(key, msg, hashlib.sha256).digest()`), 64-byte block size. -/
def hmacSha256 (key msg : List Nat) : List Nat :=
  let k0 := if key.length > 64 then sha256 key else key
  let kp := k0 ++ List.replicate (64 - k0.length) 0
  let ipad := kp.map (fun b => b ^^^ 0x36)
  let opad := kp.map (fun b => b ^^^ 0x5c)
  sha256 (opad ++ sha256 (ipad ++ msg))

/-! Section: Hex encoding and UTF-8 -/

/-- One lowercase hex digit. -/
def hexDigit (n : Nat) : Char := Char.ofNat (if n < 10 then 48 + n else 87 + n)

/-- Lowercase hex encoding of a byte list (`.hexdigest()` relative to `.digest()`). -/
def hexEncode : List Nat → List Char
  | [] => []
  | b :: t => hexDigit (b / 16 % 16) :: hexDigit (b % 16) :: hexEncode t

/-- UTF-8 encoding of one scalar value (`str.encode('utf-8')`, per character). -/
def utf8EncodeChar (c : Char) : List Nat :=
  let n := c.toNat
  if n < 128 then [n]
  else if n < 2048 then [192 + n / 64, 128 + n % 64]
  else if n < 65536 then [224 + n / 4096, 128 + n / 64 % 64, 128 + n % 64]
  else [240 + n / 262144, 128 + n / 4096 % 64, 128 + n / 64 % 64, 128 + n % 64]

/-- UTF-8 encoding of a string. -/
def utf8Encode : List Char → List Nat
  | [] => []
  | c :: t => utf8EncodeChar c ++ utf8Encode t

/-- Strict UTF-8 decoding (`bytes.decode('utf-8')`): rejects stray continuation
bytes, overlong forms, surrogates and values above `0x10FFFF`, exactly as
CPython's strict decoder does; `none` models `UnicodeDecodeError`. -/
def utf8Decode : List Nat → Option (List Char)
  | [] => some []
  | b :: rest =>
    if b < 128 then (utf8Decode rest).map (fun t => Char.ofNat b :: t)
    else if b < 194 then none
    else if b < 224 then
      match rest with
      | b2 :: rest2 =>
        if 128 ≤ b2 ∧ b2 < 192 then
          (utf8Decode rest2).map (fun t => Char.ofNat ((b - 192) * 64 + (b2 - 128)) :: t)
        else none
      | [] => none
    else if b < 240 then
      match rest with
      | b2 :: b3 :: rest3 =>
        if (if b = 224 then 160 ≤ b2 ∧ b2 < 192
            else if b = 237 then 128 ≤ b2 ∧ b2 < 160
            else 128 ≤ b2 ∧ b2 < 192) ∧ 128 ≤ b3 ∧ b3 < 192 then
          (utf8Decode rest3).map
            (fun t => Char.ofNat ((b - 224) * 4096 + (b2 - 128) * 64 + (b3 - 128)) :: t)
        else none
      | _ => none
    else if b < 245 then
      match rest with
      | b2 :: b3 :: b4 :: rest4 =>
        if (if b = 240 then 144 ≤ b2 ∧ b2 < 192
            else if b = 244 then 128 ≤ b2 ∧ b2 < 144
            else 128 ≤ b2 ∧ b2 < 192) ∧ 128 ≤ b3 ∧ b3 < 192 ∧ 128 ≤ b4 ∧ b4 < 192 then
          (utf8Decode rest4).map
            (fun t => Char.ofNat ((b - 240) * 262144 + (b2 - 128) * 4096 + (b3 - 128) * 64 + (b4 - 128)) :: t)
        else none
      | _ => none
    else none

/-! Section: Datetimes (`datetime.datetime`, `isoformat`, `fromisoformat`) -/

/-- A Python `datetime.datetime`: civil fields plus an optional UTC offset in
microseconds (`none` is a naive datetime, `some 0` is `timezone.utc`;
`timezone` offsets may carry seconds and microseconds since Python 3.7). -/
structure PyDatetime where
  year : Nat
  month : Nat
  day : Nat
  hour : Nat
  minute : Nat
  second : Nat
  microsecond : Nat
  tzoff : Option Int
deriving DecidableEq

/-- Gregorian leap year. -/
def isLeap (y : Nat) : Bool := y % 4 == 0 && (y % 100 != 0 || y % 400 == 0)

/-- Days in a month of the proleptic Gregorian calendar. -/
def daysInMonth (y m : Nat) : Nat :=
  if m = 2 then (if isLeap y then 29 else 28)
  else if m = 4 ∨ m = 6 ∨ m = 9 ∨ m = 11 then 30
  else 31

/-- Zero-padded fixed-width decimal rendering, most significant digit first. -/
def padNum : Nat → Nat → List Char
  | 0, _ => []
  | w+1, n => Char.ofNat (48 + n / 10 ^ w % 10) :: padNum w (n % 10 ^ w)

/-- The offset suffix of `datetime.isoformat`: `±HH:MM`, extended by `:SS`
when the offset has whole seconds and by `.ffffff` when it has microseconds;
empty for a naive value. -/
def offsetStr : Option Int → List Char
  | none => []
  | some off =>
    (if 0 ≤ off then '+' else '-') ::
      (padNum 2 (off.natAbs / 3600000000) ++ ':' ::
        (padNum 2 (off.natAbs / 60000000 % 60) ++
          (if off.natAbs / 1000000 % 60 = 0 ∧ off.natAbs % 1000000 = 0 then []
           else ':' :: (padNum 2 (off.natAbs / 1000000 % 60) ++
             (if off.natAbs % 1000000 = 0 then []
              else '.' :: padNum 6 (off.natAbs % 1000000))))))

/-- Python `datetime.isoformat()`: `YYYY-MM-DDTHH:MM:SS[.ffffff][±HH:MM]`, the
fractional part omitted when the microsecond field is zero. -/
def isoformat (dt : PyDatetime) : List Char :=
  padNum 4 dt.year ++ '-' :: (padNum 2 dt.month ++ '-' :: (padNum 2 dt.day ++ 'T' ::
    (padNum 2 dt.hour ++ ':' :: (padNum 2 dt.minute ++ ':' :: (padNum 2 dt.second ++
      ((if dt.microsecond = 0 then [] else '.' :: padNum 6 dt.microsecond) ++
        offsetStr dt.tzoff))))))

/-- Read exactly `w` decimal digits, accumulating left to right. -/
def readDigits : Nat → Nat → List Char → Option (Nat × List Char)
  | 0, acc, cs => some (acc, cs)
  | _+1, _, [] => none
  | w+1, acc, c :: cs =>
    if 48 ≤ c.toNat ∧ c.toNat ≤ 57 then readDigits w (acc * 10 + (c.toNat - 48)) cs else none

/-- Consume one expected character. -/
def expectChar (c : Char) : List Char → Option (List Char)
  | x :: rest => if x = c then some rest else none
  | [] => none

/-- Optional fractional seconds: a dot followed by exactly six or exactly
three digits, yielding microseconds; absent otherwise. -/
def parseFrac : List Char → Option (Nat × List Char)
  | [] => some (0, [])
  | c :: cs =>
    if c = '.' then
      match readDigits 6 0 cs with
      | some (v, r) => some (v, r)
      | none =>
        match readDigits 3 0 cs with
        | some (v, r) => some (v * 1000, r)
        | none => none
    else some (0, c :: cs)

/-- The optional seconds (and fractional seconds) of a UTC offset,
`[:SS[.ffffff]]`, which `fromisoformat` accepts since Python 3.7. -/
def parseOffSec : List Char → Option (Nat × Nat × List Char)
  | [] => some (0, 0, [])
  | c :: cs =>
    if c = ':' then
      match readDigits 2 0 cs with
      | none => none
      | some (os, r) =>
        match parseFrac r with
        | none => none
        | some (us, r2) => some (os, us, r2)
    else some (0, 0, c :: cs)

/-- Trailing UTC offset: nothing (naive) or `±HH:MM[:SS[.ffffff]]` ending the
string, yielding microseconds; `datetime.timezone` requires the magnitude to
be strictly below 24 hours (the minute and second fields themselves are not
range-checked, the resulting timedelta is normalized). -/
def parseOffset : List Char → Option (Option Int)
  | [] => some none
  | c :: cs =>
    if c = '+' ∨ c = '-' then
      match readDigits 2 0 cs with
      | none => none
      | some (oh, r1) =>
        match expectChar ':' r1 with
        | none => none
        | some r2 =>
          match readDigits 2 0 r2 with
          | none => none
          | some (om, r3) =>
            match parseOffSec r3 with
            | none => none
            | some (os, us, r4) =>
              match r4 with
              | [] =>
                if (oh * 3600 + om * 60 + os) * 1000000 + us < 86400000000 then
                  some (some (if c = '-'
                    then -((((oh * 3600 + om * 60 + os) * 1000000 + us : Nat)) : Int)
                    else (((oh * 3600 + om * 60 + os) * 1000000 + us : Nat) : Int)))
                else none
              | _ => none
    else none

/-- Time of day `HH[:MM[:SS[.frac]]]`, as `fromisoformat` accepts it. -/
def parseHMS (cs : List Char) : Option (Nat × Nat × Nat × Nat × List Char) :=
  match readDigits 2 0 cs with
  | none => none
  | some (hh, r1) =>
    match expectChar ':' r1 with
    | none => some (hh, 0, 0, 0, r1)
    | some r2 =>
      match readDigits 2 0 r2 with
      | none => none
      | some (mi, r3) =>
        match expectChar ':' r3 with
        | none => some (hh, mi, 0, 0, r3)
        | some r4 =>
          match readDigits 2 0 r4 with
          | none => none
          | some (ss, r5) =>
            match parseFrac r5 with
            | none => none
            | some (us, r6) => some (hh, mi, ss, us, r6)

/-- Python `datetime.fromisoformat`: `YYYY-MM-DD`, optionally a single separator
character and a time of day with optional fraction and optional offset
`±HH:MM[:SS[.ffffff]]`; the civil fields are range-checked against the
calendar and `ValueError` is `none`. The grammar is the version-stable
profile every CPython since 3.7 accepts (the pre-3.11 strict reader);
3.11-only laxness such as compact `±HHMM` offsets or 1-to-5-digit fractions
stays outside the model. -/
def fromisoformat (cs : List Char) : Option PyDatetime :=
  match readDigits 4 0 cs with
  | none => none
  | some (y, r1) =>
    match expectChar '-' r1 with
    | none => none
    | some r2 =>
      match readDigits 2 0 r2 with
      | none => none
      | some (mo, r3) =>
        match expectChar '-' r3 with
        | none => none
        | some r4 =>
          match readDigits 2 0 r4 with
          | none => none
          | some (dd, r5) =>
            match r5 with
            | [] =>
              if 1 ≤ y ∧ 1 ≤ mo ∧ mo ≤ 12 ∧ 1 ≤ dd ∧ dd ≤ daysInMonth y mo then
                some ⟨y, mo, dd, 0, 0, 0, 0, none⟩
              else none
            | _ :: r6 =>
              match parseHMS r6 with
              | none => none
              | some (hh, mi, ss, us, r7) =>
                match parseOffset r7 with
                | none => none
                | some off =>
                  if 1 ≤ y ∧ 1 ≤ mo ∧ mo ≤ 12 ∧ 1 ≤ dd ∧ dd ≤ daysInMonth y mo ∧
                      hh ≤ 23 ∧ mi ≤ 59 ∧ ss ≤ 59 then
                    some ⟨y, mo, dd, hh, mi, ss, us, off⟩
                  else none

/-- Days since 1970-01-01 of a civil date (Gregorian, Hinnant's algorithm);
the fixed epoch constant cancels in every datetime difference. -/
def daysFromCivil (y m d : Int) : Int :=
  let y' := if m ≤ 2 then y - 1 else y
  let era := (if 0 ≤ y' then y' else y' - 399) / 400
  let yoe := y' - era * 400
  let doy := (153 * (if 2 < m then m - 3 else m + 9) + 2) / 5 + d - 1
  let doe := yoe * 365 + yoe / 4 - yoe / 100 + doy
  era * 146097 + doe - 719468

/-- Absolute time of an aware datetime in microseconds since the epoch; a
naive datetime has none (subtracting it from an aware one raises, which the
caller's `except` turns into a failed check). -/
def epochMicro (dt : PyDatetime) : Option Int :=
  match dt.tzoff with
  | none => none
  | some off =>
    some ((daysFromCivil dt.year dt.month dt.day * 86400
      + (dt.hour : Int) * 3600 + (dt.minute : Int) * 60 + (dt.second : Int)) * 1000000
      + (dt.microsecond : Int) - off)

/-- Python `timestamp.replace('Z', '+00:00')`: every `Z` becomes `+00:00`. -/
def replaceZ : List Char → List Char
  | [] => []
  | c :: t => (if c = 'Z' then ['+', '0', '0', ':', '0', '0'] else [c]) ++ replaceZ t

/-! Section: Exceptions, configuration, client construction -/

/-- The exceptions the embedded operations can raise: the client's own
`InputTooLargeError` and `ConfigurationError` (exceptions.py), plus the
builtin `UnicodeDecodeError` (payload decoding) and `TypeError`
(`hmac.compare_digest` on non-ASCII text). -/
inductive PyError where
  | inputTooLarge
  | configurationError (msg : List Char)
  | unicodeDecodeError
  | typeError
deriving DecidableEq

/-- The merged `self.config` dictionary. -/
structure HmacConfig where
  key_interval : Int
  max_input_size : Int
  timeout : Int
deriving DecidableEq

/-- Caller overrides of `DEFAULT_CONFIG` (the `**config` kwargs). -/
structure ConfigOverrides where
  key_interval : Option Int
  max_input_size : Option Int
  timeout : Option Int
deriving DecidableEq

/-- The merged configuration dictionary: DEFAULT_CONFIG of constants.py updated with the caller overrides. -/
def mergeConfig (ov : ConfigOverrides) : HmacConfig :=
  ⟨ov.key_interval.getD 300, ov.max_input_size.getD 33554432, ov.timeout.getD 30⟩

/-- The validated client state: secret key and merged configuration. -/
structure HMACClient where
  secret_key : List Char
  config : HmacConfig
deriving DecidableEq

/-- Python `HMACClient.__init__` followed by `_validate_config`: merge the defaults
with the overrides, then fail fast on an empty key, a non-positive
`key_interval`, or a non-positive `max_input_size`. -/
def mkHMACClient (secret_key : List Char) (ov : ConfigOverrides) : Except PyError HMACClient :=
  if secret_key = [] then
    .error (.configurationError "secret_key cannot be empty".toList)
  else if (mergeConfig ov).key_interval ≤ 0 then
    .error (.configurationError "key_interval must be positive".toList)
  else if (mergeConfig ov).max_input_size ≤ 0 then
    .error (.configurationError "max_input_size must be positive".toList)
  else .ok ⟨secret_key, mergeConfig ov⟩

/-! Section: The four operations -/

/-- Source `_check_input_size`: raise `InputTooLargeError` when the payload exceeds
the configured maximum. -/
def check_input_size (c : HMACClient) (data : List Nat) : Except PyError Unit :=
  if (data.length : Int) > c.config.max_input_size then .error .inputTooLarge else .ok ()

/-- Python `hmac.compare_digest` on two strings: requires ASCII-only inputs
(otherwise `TypeError`), then constant-time equality — extensionally,
equality. -/
def compare_digest (a b : List Char) : Except PyError Bool :=
  if (∀ c ∈ a, c.toNat < 128) ∧ (∀ c ∈ b, c.toNat < 128) then .ok (a == b)
  else .error .typeError

/-- Source `sha256_sign`: size guard, then the lowercase hex HMAC-SHA256 of the
payload under the UTF-8 encoded secret key. -/
def sha256_sign (c : HMACClient) (data : List Nat) : Except PyError (List Char) :=
  match check_input_size c data with
  | .error e => .error e
  | .ok _ => .ok (hexEncode (hmacSha256 (utf8Encode c.secret_key) data))

/-- The `try` body of `sha256_verify`: size guard, recompute, constant-time
compare. -/
def sha256_verify_body (c : HMACClient) (data : List Nat) (signature : List Char) :
    Except PyError Bool :=
  match check_input_size c data with
  | .error e => .error e
  | .ok _ =>
    match sha256_sign c data with
    | .error e => .error e
    | .ok expected => compare_digest expected signature

/-- The `except InputTooLargeError: raise / except Exception: return False`
wrapper shared by both verification paths. -/
def swallowAuthErrors (r : Except PyError Bool) : Except PyError Bool :=
  match r with
  | .ok b => .ok b
  | .error .inputTooLarge => .error .inputTooLarge
  | .error _ => .ok false

/-- Source `sha256_verify`. -/
def sha256_verify (c : HMACClient) (data : List Nat) (signature : List Char) :
    Except PyError Bool :=
  swallowAuthErrors (sha256_verify_body c data signature)

/-- Source `sign256`: size guard; timestamp := `now.isoformat()`; the canonical
message `timestamp:nonce:payload-decoded-as-UTF-8` (decoding may raise);
returns (hex HMAC, timestamp, nonce). -/
def sign256 (c : HMACClient) (now : PyDatetime) (nonce : List Char) (data : List Nat) :
    Except PyError (List Char × List Char × List Char) :=
  match check_input_size c data with
  | .error e => .error e
  | .ok _ =>
    let timestamp := isoformat now
    match utf8Decode data with
    | none => .error .unicodeDecodeError
    | some text =>
      let message := timestamp ++ ':' :: (nonce ++ ':' :: text)
      .ok (hexEncode (hmacSha256 (utf8Encode c.secret_key) (utf8Encode message)), timestamp, nonce)

/-- Source `_verify_timestamp`: parse after replacing `Z` with `+00:00`; accept when
`abs((now - ts).total_seconds()) <= key_interval`; any parse or subtraction
failure is `False`. The float comparison is exact at microsecond granularity,
so it is stated over integer microseconds. -/
def verify_timestamp (c : HMACClient) (now : PyDatetime) (timestamp : List Char) : Bool :=
  match fromisoformat (replaceZ timestamp) with
  | none => false
  | some ts =>
    match epochMicro ts, epochMicro now with
    | some a, some b => decide (((b - a).natAbs : Int) ≤ c.config.key_interval * 1000000)
    | _, _ => false

/-- The `try` body of `verify256`: size guard, timestamp check first, then
rebuild the canonical message and compare digests. -/
def verify256_body (c : HMACClient) (now : PyDatetime) (data : List Nat)
    (hash_value timestamp nonce : List Char) : Except PyError Bool :=
  match check_input_size c data with
  | .error e => .error e
  | .ok _ =>
    if verify_timestamp c now timestamp then
      match utf8Decode data with
      | none => .error .unicodeDecodeError
      | some text =>
        compare_digest
          (hexEncode (hmacSha256 (utf8Encode c.secret_key)
            (utf8Encode (timestamp ++ ':' :: (nonce ++ ':' :: text)))))
          hash_value
    else .ok false

/-- Source `verify256`. -/
def verify256 (c : HMACClient) (now : PyDatetime) (data : List Nat)
    (hash_value timestamp nonce : List Char) : Except PyError Bool :=
  swallowAuthErrors (verify256_body c now data hash_value timestamp nonce)

/-- A well-formed aware-UTC datetime: exactly the values
`datetime.now(timezone.utc)` can produce. -/
def WfUtc (dt : PyDatetime) : Prop :=
  1 ≤ dt.year ∧ dt.year ≤ 9999 ∧ 1 ≤ dt.month ∧ dt.month ≤ 12 ∧
  1 ≤ dt.day ∧ dt.day ≤ daysInMonth dt.year dt.month ∧
  dt.hour ≤ 23 ∧ dt.minute ≤ 59 ∧ dt.second ≤ 59 ∧ dt.microsecond ≤ 999999 ∧
  dt.tzoff = some 0

instance (dt : PyDatetime) : Decidable (WfUtc dt) := by
  unfold WfUtc; infer_instance

end HmacClient

/-! Section: Helper lemmas: digits, padding, parsing -/

namespace HmacClient

theorem toNat_ofNat_digit (k : Nat) (hk : k < 10) : (Char.ofNat (48 + k)).toNat = 48 + k := by
  interval_cases k <;> decide

theorem readDigits_padNum (w : Nat) :
    ∀ (n acc : Nat) (rest : List Char), n < 10 ^ w →
      readDigits w acc (padNum w n ++ rest) = some (acc * 10 ^ w + n, rest) := by
  induction w with
  | zero =>
    intro n acc rest h
    simp [padNum, readDigits]
    omega
  | succ w ih =>
    intro n acc rest h
    have hd : n / 10 ^ w % 10 < 10 := Nat.mod_lt _ (by norm_num)
    have hdiv : n / 10 ^ w < 10 := by
      have : n < 10 ^ w * 10 := by rw [← pow_succ]; exact h
      exact Nat.div_lt_of_lt_mul this
    have h2 : n / 10 ^ w % 10 = n / 10 ^ w := Nat.mod_eq_of_lt hdiv
    simp only [padNum, List.cons_append, readDigits]
    rw [toNat_ofNat_digit _ hd]
    rw [if_pos (by omega)]
    simp only [List.append_eq]
    rw [ih (n % 10 ^ w) _ _ (Nat.mod_lt _ (by positivity))]
    have h1 : 10 ^ w * (n / 10 ^ w) + n % 10 ^ w = n := Nat.div_add_mod n (10 ^ w)
    congr 2
    calc (acc * 10 + (48 + n / 10 ^ w % 10 - 48)) * 10 ^ w + n % 10 ^ w
        = acc * (10 ^ w * 10) + (10 ^ w * (n / 10 ^ w) + n % 10 ^ w) := by
          rw [h2, Nat.add_sub_cancel_left]; ring
      _ = acc * 10 ^ (w + 1) + n := by rw [h1, pow_succ]

theorem readDigits_padNum0 (w n : Nat) (rest : List Char) (h : n < 10 ^ w) :
    readDigits w 0 (padNum w n ++ rest) = some (n, rest) := by
  rw [readDigits_padNum w n 0 rest h, Nat.zero_mul, Nat.zero_add]

theorem mem_padNum_toNat {ch : Char} {w n : Nat} (h : ch ∈ padNum w n) :
    48 ≤ ch.toNat ∧ ch.toNat ≤ 57 := by
  induction w generalizing n with
  | zero => simp [padNum] at h
  | succ w ih =>
    simp only [padNum, List.mem_cons] at h
    rcases h with rfl | h
    · rw [toNat_ofNat_digit _ (Nat.mod_lt _ (by norm_num))]
      have := Nat.mod_lt (n / 10 ^ w) (show 0 < 10 by norm_num)
      omega
    · exact ih h

theorem expectChar_cons (c : Char) (rest : List Char) :
    expectChar c (c :: rest) = some rest := by
  simp [expectChar]

/-! Section: Helper lemmas: replaceZ -/

theorem replaceZ_append (a b : List Char) :
    replaceZ (a ++ b) = replaceZ a ++ replaceZ b := by
  induction a with
  | nil => simp [replaceZ]
  | cons c t ih => simp [replaceZ, ih]

theorem replaceZ_eq_self {s : List Char} (h : ∀ c ∈ s, c ≠ 'Z') : replaceZ s = s := by
  induction s with
  | nil => rfl
  | cons c t ih =>
    have hc : c ≠ 'Z' := h c (List.mem_cons_self c t)
    rw [replaceZ, if_neg hc, List.singleton_append,
      ih (fun x hx => h x (List.mem_cons_of_mem c hx))]

/-! Section: Helper lemmas: hex encoding and digests -/

theorem sha256_length (msg : List Nat) : (sha256 msg).length = 32 := rfl

theorem sha256_lt (msg : List Nat) : ∀ x ∈ sha256 msg, x < 256 := by
  intro x hx
  simp only [sha256, stBytes, List.mem_cons, List.not_mem_nil, or_false] at hx
  rcases hx with h|h|h|h|h|h|h|h|h|h|h|h|h|h|h|h|h|h|h|h|h|h|h|h|h|h|h|h|h|h|h|h <;> omega

theorem hmacSha256_length (key msg : List Nat) : (hmacSha256 key msg).length = 32 :=
  sha256_length _

theorem hmacSha256_lt (key msg : List Nat) : ∀ x ∈ hmacSha256 key msg, x < 256 :=
  sha256_lt _

theorem hexDigit_toNat_lt (n : Nat) (hn : n < 16) : (hexDigit n).toNat < 128 := by
  interval_cases n <;> decide

theorem hexEncode_ascii (l : List Nat) : ∀ c ∈ hexEncode l, c.toNat < 128 := by
  induction l with
  | nil => simp [hexEncode]
  | cons b t ih =>
    intro c hc
    simp only [hexEncode, List.mem_cons] at hc
    rcases hc with rfl | rfl | hc
    · exact hexDigit_toNat_lt _ (Nat.mod_lt _ (by norm_num))
    · exact hexDigit_toNat_lt _ (Nat.mod_lt _ (by norm_num))
    · exact ih c hc

theorem hexEncode_length (l : List Nat) : (hexEncode l).length = 2 * l.length := by
  induction l with
  | nil => rfl
  | cons b t ih => simp [hexEncode, ih]; ring

theorem hexDigit_mem_hexChars (n : Nat) (hn : n < 16) :
    hexDigit n ∈ "0123456789abcdef".toList := by
  interval_cases n <;> decide

theorem hexEncode_mem (l : List Nat) :
    ∀ c ∈ hexEncode l, c ∈ "0123456789abcdef".toList := by
  induction l with
  | nil => simp [hexEncode]
  | cons b t ih =>
    intro c hc
    simp only [hexEncode, List.mem_cons] at hc
    rcases hc with rfl | rfl | hc
    · exact hexDigit_mem_hexChars _ (Nat.mod_lt _ (by norm_num))
    · exact hexDigit_mem_hexChars _ (Nat.mod_lt _ (by norm_num))
    · exact ih c hc

/-- Comparing a hex string with itself: answers true. -/
theorem compare_digest_hex_self (l : List Nat) :
    compare_digest (hexEncode l) (hexEncode l) = .ok true := by
  rw [compare_digest, if_pos ⟨hexEncode_ascii l, hexEncode_ascii l⟩]
  simp

/-- Comparing a hex string with a different string: answers false. -/
theorem compare_digest_hex_ne (l : List Nat) (s : List Char) (h : hexEncode l ≠ s)
    (hs : ∀ c ∈ s, c.toNat < 128) :
    compare_digest (hexEncode l) s = .ok false := by
  rw [compare_digest, if_pos ⟨hexEncode_ascii l, hs⟩]
  simpa using h

/-! Section: Helper lemmas: the error wrapper and construction -/

theorem swallowAuthErrors_error {r : Except PyError Bool} {e : PyError}
    (h : swallowAuthErrors r = .error e) : e = .inputTooLarge ∧ r = .error .inputTooLarge := by
  match r with
  | .ok b => simp [swallowAuthErrors] at h
  | .error .inputTooLarge =>
    simp only [swallowAuthErrors] at h
    cases h
    exact ⟨rfl, rfl⟩
  | .error (.configurationError m) => simp [swallowAuthErrors] at h
  | .error .unicodeDecodeError => simp [swallowAuthErrors] at h
  | .error .typeError => simp [swallowAuthErrors] at h

theorem swallowAuthErrors_nonsize {e : PyError} (he : e ≠ .inputTooLarge) :
    swallowAuthErrors (.error e) = .ok false := by
  match e with
  | .inputTooLarge => exact absurd rfl he
  | .configurationError m => rfl
  | .unicodeDecodeError => rfl
  | .typeError => rfl

theorem mkHMACClient_ok {k : List Char} {ov : ConfigOverrides} {c : HMACClient}
    (h : mkHMACClient k ov = .ok c) :
    c.secret_key = k ∧ c.config = mergeConfig ov ∧
      0 < c.config.key_interval ∧ 0 < c.config.max_input_size := by
  unfold mkHMACClient at h
  split at h
  · simp at h
  · split at h
    · simp at h
    · split at h
      · simp at h
      · rename_i h1 h2 h3
        cases h
        refine ⟨rfl, rfl, ?_, ?_⟩
        · show 0 < (mergeConfig ov).key_interval
          omega
        · show 0 < (mergeConfig ov).max_input_size
          omega

end HmacClient

/-! Section: Helper lemmas: the isoformat round trip -/

namespace HmacClient

theorem daysInMonth_le (y m : Nat) : daysInMonth y m ≤ 31 := by
  unfold daysInMonth
  split_ifs <;> norm_num

theorem parseFrac_format (us : Nat) (hus : us ≤ 999999) :
    parseFrac ((if us = 0 then [] else '.' :: padNum 6 us) ++ offsetStr (some 0)) =
      some (us, offsetStr (some 0)) := by
  by_cases h0 : us = 0
  · subst h0
    rfl
  · rw [if_neg h0]
    simp only [List.cons_append, parseFrac, if_true]
    rw [readDigits_padNum0 6 us _ (by omega)]

theorem parseHMS_format (hh mi ss us : Nat) (hhh : hh ≤ 23) (hmi : mi ≤ 59) (hss : ss ≤ 59)
    (hus : us ≤ 999999) :
    parseHMS (padNum 2 hh ++ ':' :: (padNum 2 mi ++ ':' :: (padNum 2 ss ++
        ((if us = 0 then [] else '.' :: padNum 6 us) ++ offsetStr (some 0))))) =
      some (hh, mi, ss, us, offsetStr (some 0)) := by
  unfold parseHMS
  rw [readDigits_padNum0 2 hh _ (by omega)]
  dsimp only
  rw [expectChar_cons]
  dsimp only
  rw [readDigits_padNum0 2 mi _ (by omega)]
  dsimp only
  rw [expectChar_cons]
  dsimp only
  rw [readDigits_padNum0 2 ss _ (by omega)]
  dsimp only
  rw [parseFrac_format us hus]

theorem offsetStr_utc : offsetStr (some 0) =
    '+' :: ('0' :: ('0' :: (':' :: ('0' :: ('0' :: []))))) := rfl

theorem parseOffset_utc : parseOffset (offsetStr (some 0)) = some (some 0) := rfl

/-- Parsing the formatted text of a well-formed aware-UTC datetime recovers it
exactly. -/
theorem fromisoformat_isoformat (dt : PyDatetime) (h : WfUtc dt) :
    fromisoformat (isoformat dt) = some dt := by
  obtain ⟨y, mo, dd, hh, mi, ss, us, off⟩ := dt
  obtain ⟨h1, h2, h3, h4, h5, h6, h7, h8, h9, h10, h11⟩ := h
  dsimp only at h1 h2 h3 h4 h5 h6 h7 h8 h9 h10 h11
  subst h11
  simp only [isoformat]
  unfold fromisoformat
  rw [readDigits_padNum0 4 y _ (by omega)]
  dsimp only
  rw [expectChar_cons]
  dsimp only
  rw [readDigits_padNum0 2 mo _ (by omega)]
  dsimp only
  rw [expectChar_cons]
  dsimp only
  rw [readDigits_padNum0 2 dd _ (by have := daysInMonth_le y mo; omega)]
  dsimp only
  rw [parseHMS_format hh mi ss us h7 h8 h9 h10]
  dsimp only
  rw [parseOffset_utc]
  dsimp only
  rw [if_pos ⟨h1, h3, h4, h5, h6, h7, h8, h9⟩]

theorem padNum_noZ {c : Char} {w n : Nat} (h : c ∈ padNum w n) : c ≠ 'Z' := by
  have h2 := mem_padNum_toNat h
  intro hz
  subst hz
  revert h2
  decide

/-- The textual timestamp the signer generates contains no `Z`, so the
verifier's `Z` replacement leaves it unchanged. -/
theorem isoformat_noZ (dt : PyDatetime) (hoff : dt.tzoff = some 0) :
    ∀ c ∈ isoformat dt, c ≠ 'Z' := by
  intro c hc hZ
  subst hZ
  rw [isoformat, hoff] at hc
  have hpad : ∀ w n : Nat, ('Z' ∈ padNum w n) = False :=
    fun w n => eq_false (fun h => padNum_noZ h rfl)
  by_cases h0 : dt.microsecond = 0 <;>
    simp [h0, hpad, offsetStr_utc, List.mem_append] at hc

end HmacClient

/-! Section: Claim C1 -/

namespace HmacClient

/-- C1: for every payload within the configured size limit and decodable as
UTF-8, and every key (any validly constructed client), verifying with
`verify256` the exact (hash, timestamp, nonce) triple returned by `sign256`
under the same key and the same clock reading returns true: the verifier
rebuilds the identical canonical message `timestamp:nonce:payload` and
recomputes the same HMAC. -/
theorem C1_verify256_accepts_fresh_sign256 (k : List Char) (ov : ConfigOverrides)
    (c : HMACClient) (now : PyDatetime) (nonce : List Char) (data : List Nat)
    (text : List Char) (hsh ts nn : List Char)
    (hmk : mkHMACClient k ov = .ok c)
    (hnow : WfUtc now)
    (hsize : (data.length : Int) ≤ c.config.max_input_size)
    (hdec : utf8Decode data = some text)
    (hsig : sign256 c now nonce data = .ok (hsh, ts, nn)) :
    verify256 c now data hsh ts nn = .ok true := by
  obtain ⟨hkey, hcfg, hki, hmax⟩ := mkHMACClient_ok hmk
  have hoff : now.tzoff = some 0 := hnow.2.2.2.2.2.2.2.2.2.2
  have hchk : check_input_size c data = .ok () := by
    unfold check_input_size
    rw [if_neg (by omega)]
  unfold sign256 at hsig
  rw [hchk] at hsig
  dsimp only at hsig
  rw [hdec] at hsig
  dsimp only at hsig
  injection hsig with htrip
  have hcomps : hsh = hexEncode (hmacSha256 (utf8Encode c.secret_key)
      (utf8Encode (isoformat now ++ ':' :: (nonce ++ ':' :: text)))) ∧
      ts = isoformat now ∧ nn = nonce := by
    simpa [Prod.ext_iff, eq_comm] using htrip
  obtain ⟨rfl, rfl, rfl⟩ := hcomps
  have hvt : verify_timestamp c now (isoformat now) = true := by
    unfold verify_timestamp
    rw [replaceZ_eq_self (isoformat_noZ now hoff)]
    rw [fromisoformat_isoformat now hnow]
    dsimp only
    unfold epochMicro
    rw [hoff]
    dsimp only
    simp only [sub_self, Int.natAbs_zero, Nat.cast_zero, decide_eq_true_eq]
    omega
  unfold verify256 verify256_body
  rw [hchk]
  rw [hvt]
  dsimp only [if_true]
  rw [hdec]
  dsimp only
  rw [compare_digest_hex_self]
  rfl

/-- Concrete data for the C1 witness. -/
def wKey : List Char := ['k', 'e', 'y']

def wOv : ConfigOverrides := ⟨none, none, none⟩

def wClient : HMACClient := ⟨wKey, ⟨300, 33554432, 30⟩⟩

def wNow : PyDatetime := ⟨2024, 1, 2, 3, 4, 5, 123456, some 0⟩

def wData : List Nat := [116, 101, 115, 116]

def wText : List Char := ['t', 'e', 's', 't']

def wNonce : List Char := ['a', 'b', 'c']

def wHash : List Char :=
  hexEncode (hmacSha256 (utf8Encode wKey)
    (utf8Encode (isoformat wNow ++ ':' :: (wNonce ++ ':' :: wText))))

/-- C1 witness: the round trip at a concrete key, clock reading, nonce and
payload. -/
theorem C1_witness : verify256 wClient wNow wData wHash (isoformat wNow) wNonce = .ok true :=
  C1_verify256_accepts_fresh_sign256 wKey wOv wClient wNow wNonce wData wText
    wHash (isoformat wNow) wNonce rfl (by decide) (by decide) (by decide) rfl

end HmacClient

/-! Section: Claims C3, C4, C9 -/

namespace HmacClient

theorem swallow_compare (a b : List Char) :
    ∃ x, swallowAuthErrors (compare_digest a b) = .ok x := by
  unfold compare_digest
  split
  · exact ⟨a == b, rfl⟩
  · exact ⟨false, rfl⟩

theorem sha256_verify_isOk (c : HMACClient) (data : List Nat) (signature : List Char)
    (hchk : check_input_size c data = .ok ()) :
    ∃ b, sha256_verify c data signature = .ok b := by
  unfold sha256_verify sha256_verify_body sha256_sign
  rw [hchk]
  dsimp only
  exact swallow_compare _ _

theorem verify256_isOk (c : HMACClient) (now : PyDatetime) (data : List Nat)
    (hsh ts nn : List Char)
    (hchk : check_input_size c data = .ok ()) :
    ∃ b, verify256 c now data hsh ts nn = .ok b := by
  unfold verify256 verify256_body
  rw [hchk]
  dsimp only
  by_cases hvt : verify_timestamp c now ts = true
  · rw [if_pos hvt]
    match hdc : utf8Decode data with
    | none => exact ⟨false, rfl⟩
    | some t =>
      dsimp only
      exact swallow_compare _ _
  · rw [if_neg hvt]
    exact ⟨false, rfl⟩

theorem check_input_size_ok (c : HMACClient) (data : List Nat)
    (hsize : (data.length : Int) ≤ c.config.max_input_size) :
    check_input_size c data = .ok () := by
  unfold check_input_size
  rw [if_neg (by omega)]

theorem check_input_size_over (c : HMACClient) (data : List Nat)
    (hsize : c.config.max_input_size < (data.length : Int)) :
    check_input_size c data = .error .inputTooLarge := by
  unfold check_input_size
  rw [if_pos (by omega)]

/-- C3: a payload of exactly `max_input_size` bytes passes the size guard and
the operation proceeds (returns a value), while a payload of
`max_input_size + 1` bytes raises `InputTooLargeError`, on the signing and
verification paths of both the stateless and the stateful mode. -/
theorem C3_size_guard_boundary (k : List Char) (ov : ConfigOverrides) (c : HMACClient)
    (data : List Nat) (signature : List Char) (now : PyDatetime) (nonce : List Char)
    (hsh ts nn : List Char) (text : List Char)
    (_hmk : mkHMACClient k ov = .ok c)
    (hdec : utf8Decode data = some text) :
    ((data.length : Int) = c.config.max_input_size →
      (∃ s, sha256_sign c data = .ok s) ∧
      (∃ b, sha256_verify c data signature = .ok b) ∧
      (∃ t, sign256 c now nonce data = .ok t) ∧
      (∃ b, verify256 c now data hsh ts nn = .ok b)) ∧
    ((data.length : Int) = c.config.max_input_size + 1 →
      sha256_sign c data = .error .inputTooLarge ∧
      sha256_verify c data signature = .error .inputTooLarge ∧
      sign256 c now nonce data = .error .inputTooLarge ∧
      verify256 c now data hsh ts nn = .error .inputTooLarge) := by
  constructor
  · intro hlen
    have hchk : check_input_size c data = .ok () := check_input_size_ok c data (by omega)
    refine ⟨⟨hexEncode (hmacSha256 (utf8Encode c.secret_key) data), ?_⟩,
      sha256_verify_isOk c data signature hchk,
      ⟨(hexEncode (hmacSha256 (utf8Encode c.secret_key)
          (utf8Encode (isoformat now ++ ':' :: (nonce ++ ':' :: text)))),
        isoformat now, nonce), ?_⟩,
      verify256_isOk c now data hsh ts nn hchk⟩
    · unfold sha256_sign
      rw [hchk]
    · unfold sign256
      rw [hchk]
      dsimp only
      rw [hdec]
  · intro hlen
    have hchk : check_input_size c data = .error .inputTooLarge :=
      check_input_size_over c data (by omega)
    refine ⟨?_, ?_, ?_, ?_⟩
    · unfold sha256_sign
      rw [hchk]
    · unfold sha256_verify sha256_verify_body
      rw [hchk]
      rfl
    · unfold sign256
      rw [hchk]
    · unfold verify256 verify256_body
      rw [hchk]
      rfl

/-- Concrete client with a 3-byte size limit for the C3 and C4 witnesses. -/
def w3Client : HMACClient := ⟨['k'], ⟨300, 3, 30⟩⟩

def w3Ov : ConfigOverrides := ⟨none, some 3, none⟩

/-- C3 witness: the boundary at a concrete limit of 3 bytes. -/
theorem C3_witness :
    ((∃ s, sha256_sign w3Client [97, 98, 99] = .ok s) ∧
      (∃ b, sha256_verify w3Client [97, 98, 99] ['x'] = .ok b) ∧
      (∃ t, sign256 w3Client wNow wNonce [97, 98, 99] = .ok t) ∧
      (∃ b, verify256 w3Client wNow [97, 98, 99] ['x'] ['t'] ['n'] = .ok b)) ∧
    (sha256_sign w3Client [97, 98, 99, 100] = .error .inputTooLarge ∧
      sha256_verify w3Client [97, 98, 99, 100] ['x'] = .error .inputTooLarge ∧
      sign256 w3Client wNow wNonce [97, 98, 99, 100] = .error .inputTooLarge ∧
      verify256 w3Client wNow [97, 98, 99, 100] ['x'] ['t'] ['n'] = .error .inputTooLarge) :=
  ⟨(C3_size_guard_boundary ['k'] w3Ov w3Client [97, 98, 99] ['x'] wNow wNonce
      ['x'] ['t'] ['n'] ['a', 'b', 'c'] rfl (by decide)).1 (by decide),
    (C3_size_guard_boundary ['k'] w3Ov w3Client [97, 98, 99, 100] ['x'] wNow wNonce
      ['x'] ['t'] ['n'] ['a', 'b', 'c', 'd'] rfl (by decide)).2 (by decide)⟩

/-- C4: in both verification operations the size violation is the only
exception that reaches the caller: every other exception raised internally
by the verification body (decoding, comparison) is swallowed and the call
returns false; any error that does propagate is `InputTooLargeError` with
the payload over the limit; and under the size limit the call always
returns a boolean. -/
theorem C4_verification_error_policy (c : HMACClient) (data : List Nat)
    (signature : List Char) (now : PyDatetime) (hsh ts nn : List Char) :
    ((data.length : Int) ≤ c.config.max_input_size →
      (∃ b, sha256_verify c data signature = .ok b) ∧
      (∃ b, verify256 c now data hsh ts nn = .ok b)) ∧
    (∀ e, e ≠ .inputTooLarge → sha256_verify_body c data signature = .error e →
      sha256_verify c data signature = .ok false) ∧
    (∀ e, e ≠ .inputTooLarge → verify256_body c now data hsh ts nn = .error e →
      verify256 c now data hsh ts nn = .ok false) ∧
    (∀ e, sha256_verify c data signature = .error e →
      e = .inputTooLarge ∧ c.config.max_input_size < (data.length : Int)) ∧
    (∀ e, verify256 c now data hsh ts nn = .error e →
      e = .inputTooLarge ∧ c.config.max_input_size < (data.length : Int)) := by
  refine ⟨?_, ?_, ?_, ?_, ?_⟩
  · intro hle
    have hchk := check_input_size_ok c data hle
    exact ⟨sha256_verify_isOk c data signature hchk, verify256_isOk c now data hsh ts nn hchk⟩
  · intro e hne he
    unfold sha256_verify
    rw [he]
    exact swallowAuthErrors_nonsize hne
  · intro e hne he
    unfold verify256
    rw [he]
    exact swallowAuthErrors_nonsize hne
  · intro e he
    obtain ⟨he1, _⟩ := swallowAuthErrors_error he
    refine ⟨he1, ?_⟩
    by_contra hlt
    push_neg at hlt
    obtain ⟨b, hb⟩ := sha256_verify_isOk c data signature (check_input_size_ok c data hlt)
    rw [hb] at he
    exact absurd he (by simp)
  · intro e he
    obtain ⟨he1, _⟩ := swallowAuthErrors_error he
    refine ⟨he1, ?_⟩
    by_contra hlt
    push_neg at hlt
    obtain ⟨b, hb⟩ := verify256_isOk c now data hsh ts nn (check_input_size_ok c data hlt)
    rw [hb] at he
    exact absurd he (by simp)

/-- A timestamp and matching clock reading for the C4 witness: the timestamp
check passes, so the stateful body reaches payload decoding. -/
def e4Ts : List Char := "2024-01-01T00:00:05+00:00".toList

def e4Now : PyDatetime := ⟨2024, 1, 1, 0, 0, 5, 0, some 0⟩

set_option maxHeartbeats 4000000 in
/-- C4 witness: a non-ASCII signature makes the stateless body raise
`TypeError` and the call still returns false; a non-UTF-8 payload past a
valid timestamp makes the stateful body raise `UnicodeDecodeError` and the
call still returns false; under the limit both calls return booleans; over
the limit the propagated error is exactly `InputTooLargeError`. -/
theorem C4_witness :
    sha256_verify w3Client [97] [Char.ofNat 233] = .ok false ∧
    verify256 w3Client e4Now [255] ['x'] e4Ts ['n'] = .ok false ∧
    (∃ b, sha256_verify w3Client [97] ['x'] = .ok b) ∧
    (PyError.inputTooLarge = PyError.inputTooLarge ∧
      w3Client.config.max_input_size < (([97, 98, 99, 100] : List Nat).length : Int)) :=
  ⟨(C4_verification_error_policy w3Client [97] [Char.ofNat 233] e4Now ['x'] e4Ts ['n']).2.1
      .typeError (by decide) rfl,
    (C4_verification_error_policy w3Client [255] [Char.ofNat 233] e4Now ['x'] e4Ts ['n']).2.2.1
      .unicodeDecodeError (by decide) rfl,
    ((C4_verification_error_policy w3Client [97] ['x'] e4Now ['x'] e4Ts ['n']).1 (by decide)).1,
    (C4_verification_error_policy w3Client [97, 98, 99, 100] ['x'] e4Now
      ['x'] e4Ts ['n']).2.2.2.2 .inputTooLarge rfl⟩

/-- C9: for a payload within the size limit that is not valid UTF-8, the two
stateful operations are asymmetric: `sign256` raises the decoding error while
`verify256` swallows it and returns false. -/
theorem C9_utf8_asymmetry (c : HMACClient) (now : PyDatetime) (nonce : List Char)
    (data : List Nat) (hsh ts nn : List Char)
    (hsize : (data.length : Int) ≤ c.config.max_input_size)
    (hdec : utf8Decode data = none) :
    sign256 c now nonce data = .error .unicodeDecodeError ∧
    verify256 c now data hsh ts nn = .ok false := by
  have hchk := check_input_size_ok c data hsize
  constructor
  · unfold sign256
    rw [hchk]
    dsimp only
    rw [hdec]
  · unfold verify256 verify256_body
    rw [hchk]
    dsimp only
    by_cases hvt : verify_timestamp c now ts = true
    · rw [if_pos hvt, hdec]
      rfl
    · rw [if_neg hvt]
      rfl

/-- C9 witness: the byte `0xFF` is not valid UTF-8. -/
theorem C9_witness :
    sign256 wClient wNow wNonce [255] = .error .unicodeDecodeError ∧
    verify256 wClient wNow [255] ['x'] ['t'] ['n'] = .ok false :=
  C9_utf8_asymmetry wClient wNow wNonce [255] ['x'] ['t'] ['n'] (by decide) (by decide)

end HmacClient

/-! Section: Claims C5, C6 -/

namespace HmacClient

end HmacClient

/-! Section: Claims C7, C8 -/

namespace HmacClient

/-- The client of the spec's example vector: key `"test-secret-key"`, default
configuration. -/
def testClient : HMACClient := ⟨"test-secret-key".toList, ⟨300, 33554432, 30⟩⟩

/-- The bytes of `b"test data"`. -/
def testData : List Nat := [116, 101, 115, 116, 32, 100, 97, 116, 97]

/-- C7: for every payload within the size limit and every key, `sha256_sign`
returns exactly the lowercase hexadecimal encoding of HMAC-SHA256(key,
payload) — a 64-character string over `0-9a-f` — and on the example vector
(key `"test-secret-key"`, payload `b"test data"`) it equals the independently
computed HMAC-SHA256 digest of those exact bytes. -/
theorem C7_sha256_sign_spec :
    (∀ (k : List Char) (ov : ConfigOverrides) (c : HMACClient) (data : List Nat),
      mkHMACClient k ov = .ok c → (data.length : Int) ≤ c.config.max_input_size →
      sha256_sign c data = .ok (hexEncode (hmacSha256 (utf8Encode k) data)) ∧
      (hexEncode (hmacSha256 (utf8Encode k) data)).length = 64 ∧
      (∀ ch ∈ hexEncode (hmacSha256 (utf8Encode k) data), ch ∈ "0123456789abcdef".toList)) ∧
    sha256_sign testClient testData =
      .ok "e01301d91b3425a4bdaed491b18bd8ec841364fdd41345200c6ea0de115bb72c".toList := by
  constructor
  · intro k ov c data hmk hsize
    obtain ⟨hkey, -, -, -⟩ := mkHMACClient_ok hmk
    refine ⟨?_, ?_, hexEncode_mem _⟩
    · unfold sha256_sign
      rw [check_input_size_ok c data hsize, hkey]
    · rw [hexEncode_length, hmacSha256_length]
  · rfl

/-- C7 witness: the universal part applied at the example vector's key and
payload. -/
theorem C7_witness :
    sha256_sign testClient testData =
      .ok (hexEncode (hmacSha256 (utf8Encode "test-secret-key".toList) testData)) ∧
    (hexEncode (hmacSha256 (utf8Encode "test-secret-key".toList) testData)).length = 64 :=
  ⟨(C7_sha256_sign_spec.1 "test-secret-key".toList ⟨none, none, none⟩ testClient testData
      rfl (by decide)).1,
    (C7_sha256_sign_spec.1 "test-secret-key".toList ⟨none, none, none⟩ testClient testData
      rfl (by decide)).2.1⟩

/-- C8: construction fails fast with `ConfigurationError` — before any
signing or verification is possible — when the secret key is empty, when the
merged `key_interval` is non-positive, or when the merged `max_input_size` is
non-positive; with valid parameters it succeeds and the stored configuration
is the defaults (`key_interval` 300, `max_input_size` 33554432, `timeout` 30)
overridden by the caller's values. -/
theorem C8_construction_validation (k : List Char) (ov : ConfigOverrides) :
    (k = [] →
      mkHMACClient k ov = .error (.configurationError "secret_key cannot be empty".toList)) ∧
    (k ≠ [] → (mergeConfig ov).key_interval ≤ 0 →
      mkHMACClient k ov = .error (.configurationError "key_interval must be positive".toList)) ∧
    (k ≠ [] → 0 < (mergeConfig ov).key_interval → (mergeConfig ov).max_input_size ≤ 0 →
      mkHMACClient k ov = .error (.configurationError "max_input_size must be positive".toList)) ∧
    (k ≠ [] → 0 < (mergeConfig ov).key_interval → 0 < (mergeConfig ov).max_input_size →
      mkHMACClient k ov = .ok ⟨k,
        ⟨ov.key_interval.getD 300, ov.max_input_size.getD 33554432, ov.timeout.getD 30⟩⟩) := by
  refine ⟨?_, ?_, ?_, ?_⟩
  · intro h0
    unfold mkHMACClient
    rw [if_pos h0]
  · intro h0 h1
    unfold mkHMACClient
    rw [if_neg h0, if_pos h1]
  · intro h0 h1 h2
    unfold mkHMACClient
    rw [if_neg h0, if_neg (by omega), if_pos h2]
  · intro h0 h1 h2
    unfold mkHMACClient
    rw [if_neg h0, if_neg (by omega), if_neg (by omega)]
    rfl

/-- C8 witness: an empty key fails with the exact error, and a construction
with overridden values stores the overrides on top of the defaults. -/
theorem C8_witness :
    mkHMACClient [] ⟨none, none, none⟩ =
      .error (.configurationError "secret_key cannot be empty".toList) ∧
    mkHMACClient ['k'] ⟨some 7, some 9, none⟩ = .ok ⟨['k'], ⟨7, 9, 30⟩⟩ :=
  ⟨(C8_construction_validation [] ⟨none, none, none⟩).1 rfl,
    (C8_construction_validation ['k'] ⟨some 7, some 9, none⟩).2.2.2
      (by decide) (by decide) (by decide)⟩

end HmacClient

/-! Section: Claim C2 -/

namespace HmacClient

/-- Base-256 value of a byte list; injective on fixed-length byte lists, which
turns digest lists into elements of a finite type for the pigeonhole
argument. -/
def baseVal : List Nat → Nat
  | [] => 0
  | b :: t => b * 256 ^ t.length + baseVal t

theorem baseVal_lt {l : List Nat} (h : ∀ x ∈ l, x < 256) : baseVal l < 256 ^ l.length := by
  induction l with
  | nil => simp [baseVal]
  | cons b t ih =>
    have hb : b < 256 := h b (List.mem_cons_self b t)
    have ht := ih (fun x hx => h x (List.mem_cons_of_mem b hx))
    simp only [baseVal, List.length_cons, pow_succ]
    calc b * 256 ^ t.length + baseVal t
        < b * 256 ^ t.length + 256 ^ t.length := Nat.add_lt_add_left ht _
      _ = (b + 1) * 256 ^ t.length := by ring
      _ ≤ 256 * 256 ^ t.length := Nat.mul_le_mul_right _ (by omega)
      _ = 256 ^ t.length * 256 := by ring

theorem baseVal_inj : ∀ (l1 l2 : List Nat), l1.length = l2.length →
    (∀ x ∈ l1, x < 256) → (∀ x ∈ l2, x < 256) → baseVal l1 = baseVal l2 → l1 = l2 := by
  intro l1
  induction l1 with
  | nil =>
    intro l2 hlen _ _ _
    cases l2 with
    | nil => rfl
    | cons b2 t2 => simp at hlen
  | cons b t ih =>
    intro l2 hlen h1 h2 heq
    cases l2 with
    | nil => simp at hlen
    | cons b2 t2 =>
      have hlen' : t.length = t2.length := by simpa using hlen
      have hv1 : baseVal t < 256 ^ t2.length := by
        rw [← hlen']
        exact baseVal_lt (fun x hx => h1 x (List.mem_cons_of_mem b hx))
      have hv2 : baseVal t2 < 256 ^ t2.length :=
        baseVal_lt (fun x hx => h2 x (List.mem_cons_of_mem b2 hx))
      simp only [baseVal, hlen'] at heq
      have hP : 0 < 256 ^ t2.length := pow_pos (by norm_num) _
      have hb : b = b2 := by
        have e1 : (b * 256 ^ t2.length + baseVal t) / 256 ^ t2.length = b := by
          rw [mul_comm, Nat.mul_add_div hP, Nat.div_eq_of_lt hv1, Nat.add_zero]
        have e2 : (b2 * 256 ^ t2.length + baseVal t2) / 256 ^ t2.length = b2 := by
          rw [mul_comm, Nat.mul_add_div hP, Nat.div_eq_of_lt hv2, Nat.add_zero]
        rw [← e1, heq, e2]
      subst hb
      have hv : baseVal t = baseVal t2 := Nat.add_left_cancel heq
      rw [ih t2 hlen' (fun x hx => h1 x (List.mem_cons_of_mem b hx))
        (fun x hx => h2 x (List.mem_cons_of_mem b hx)) hv]

/-- Keys of every positive length, pairwise distinct. -/
def keyRep (n : Nat) : List Char := List.replicate (n + 1) 'a'

theorem hmac_len_eq (k1 m1 k2 m2 : List Nat) :
    (hmacSha256 k1 m1).length = (hmacSha256 k2 m2).length := by
  rw [hmacSha256_length, hmacSha256_length]

/-- Each key's digest of the empty payload, as an element of the finite type
of 256-bit values. -/
def digestFin (n : Nat) : Fin (256 ^ 32) :=
  ⟨baseVal (hmacSha256 (utf8Encode (keyRep n)) []), by
    have h := baseVal_lt (hmacSha256_lt (utf8Encode (keyRep n)) [])
    rwa [hmacSha256_length] at h⟩

theorem digestFin_val (n : Nat) :
    (digestFin n).val = baseVal (hmacSha256 (utf8Encode (keyRep n)) []) := rfl

/-- Pigeonhole: two distinct keys share an HMAC digest. -/
theorem hmac_keyRep_collision : ∃ n m : Nat, n ≠ m ∧
    hmacSha256 (utf8Encode (keyRep n)) [] = hmacSha256 (utf8Encode (keyRep m)) [] := by
  obtain ⟨n, m, hnm, hF⟩ := Finite.exists_ne_map_eq_of_infinite digestFin
  refine ⟨n, m, hnm, baseVal_inj _ _ (hmac_len_eq _ _ _ _)
    (hmacSha256_lt _ _) (hmacSha256_lt _ _) ?_⟩
  exact (digestFin_val n).symm.trans ((congrArg Fin.val hF).trans (digestFin_val m))


theorem keyRep_injective {n m : Nat} (h : keyRep n = keyRep m) : n = m := by
  have hl := congrArg List.length h
  simpa [keyRep] using hl

/-- The client holding the n-th key, default configuration. -/
def cRep (n : Nat) : HMACClient := ⟨keyRep n, ⟨300, 33554432, 30⟩⟩

theorem mk_keyRep (n : Nat) : mkHMACClient (keyRep n) ⟨none, none, none⟩ = .ok (cRep n) := by
  unfold mkHMACClient cRep
  rw [if_neg (by simp [keyRep]), if_neg (by decide), if_neg (by decide)]
  rfl

theorem size_keyRep (n : Nat) :
    ((([] : List Nat)).length : Int) ≤ (cRep n).config.max_input_size := by
  unfold cRep
  dsimp only
  decide

theorem sign_keyRep (n : Nat) : sha256_sign (cRep n) [] =
    .ok (hexEncode (hmacSha256 (utf8Encode (keyRep n)) [])) := by
  unfold sha256_sign
  rw [check_input_size_ok (cRep n) [] (size_keyRep n)]
  dsimp only [cRep]

theorem verify_keyRep_true (n m : Nat)
    (hdig : hmacSha256 (utf8Encode (keyRep n)) [] = hmacSha256 (utf8Encode (keyRep m)) []) :
    sha256_verify (cRep m) [] (hexEncode (hmacSha256 (utf8Encode (keyRep n)) [])) = .ok true := by
  unfold sha256_verify sha256_verify_body sha256_sign
  rw [check_input_size_ok (cRep m) [] (size_keyRep m)]
  dsimp only [cRep]
  rw [← hdig, compare_digest_hex_self]
  rfl

/-- C2, original statement, refuted: it asserts among other things that for
every pair of distinct keys, verifying a signature made under one key with
the other key answers false — that is, that distinct keys always yield
distinct HMAC digests. Infinitely many keys map into the finite set of
256-bit digests, so by pigeonhole two distinct keys share a digest and the
cross-key verification answers true for them. -/
theorem C2_counterexample :
    ¬ (∀ (k k' : List Char) (c c' : HMACClient) (data : List Nat) (s : List Char),
        mkHMACClient k ⟨none, none, none⟩ = .ok c →
        mkHMACClient k' ⟨none, none, none⟩ = .ok c' →
        (data.length : Int) ≤ c.config.max_input_size →
        sha256_sign c data = .ok s →
        (sha256_verify c data s = .ok true ∧
          (k ≠ k' → sha256_verify c' data s = .ok false))) := by
  intro H
  obtain ⟨n, m, hnm, hdig⟩ := hmac_keyRep_collision
  obtain ⟨-, hfalse⟩ := H (keyRep n) (keyRep m) (cRep n) (cRep m) [] _
    (mk_keyRep n) (mk_keyRep m) (size_keyRep n) (sign_keyRep n)
  have htrue := verify_keyRep_true n m hdig
  rw [hfalse (fun he => hnm (keyRep_injective he))] at htrue
  exact absurd htrue (by simp)


/-- C2, amended: same-key verification of a fresh signature always answers
true; different-key verification answers false exactly when the two keys'
HMAC digests of the payload differ — which holds for generic key pairs but,
by pigeonhole over the finite digest space, not universally. -/
theorem C2_amended_sign_verify (k k' : List Char) (ov ov' : ConfigOverrides)
    (c c' : HMACClient) (data : List Nat) (s : List Char)
    (hmk : mkHMACClient k ov = .ok c) (hmk' : mkHMACClient k' ov' = .ok c')
    (hsize : (data.length : Int) ≤ c.config.max_input_size)
    (hsize' : (data.length : Int) ≤ c'.config.max_input_size)
    (hsig : sha256_sign c data = .ok s) :
    sha256_verify c data s = .ok true ∧
    (hexEncode (hmacSha256 (utf8Encode k') data) ≠ hexEncode (hmacSha256 (utf8Encode k) data) →
      sha256_verify c' data s = .ok false) := by
  obtain ⟨hkey, -, -, -⟩ := mkHMACClient_ok hmk
  obtain ⟨hkey', -, -, -⟩ := mkHMACClient_ok hmk'
  have hs : s = hexEncode (hmacSha256 (utf8Encode k) data) := by
    unfold sha256_sign at hsig
    rw [check_input_size_ok c data hsize] at hsig
    dsimp only at hsig
    rw [hkey] at hsig
    injection hsig with hsig
    exact hsig.symm
  subst hs
  constructor
  · unfold sha256_verify sha256_verify_body sha256_sign
    rw [check_input_size_ok c data hsize]
    dsimp only
    rw [hkey, compare_digest_hex_self]
    rfl
  · intro hne
    unfold sha256_verify sha256_verify_body sha256_sign
    rw [check_input_size_ok c' data hsize']
    dsimp only
    rw [hkey', compare_digest_hex_ne _ _ hne (hexEncode_ascii _)]
    rfl

def caClient : HMACClient := ⟨['a'], ⟨300, 33554432, 30⟩⟩

def cbClient : HMACClient := ⟨['b'], ⟨300, 33554432, 30⟩⟩

set_option maxHeartbeats 4000000 in
/-- C2 witness: at the concrete keys `"a"` and `"b"` and payload `b"x"`, the
digests differ, so same-key verification answers true and cross-key
verification answers false. -/
theorem C2_witness :
    sha256_verify caClient [120] (hexEncode (hmacSha256 (utf8Encode ['a']) [120])) = .ok true ∧
    sha256_verify cbClient [120] (hexEncode (hmacSha256 (utf8Encode ['a']) [120])) = .ok false := by
  have h := C2_amended_sign_verify ['a'] ['b'] ⟨none, none, none⟩ ⟨none, none, none⟩
    caClient cbClient [120] (hexEncode (hmacSha256 (utf8Encode ['a']) [120]))
    rfl rfl (by decide) (by decide) rfl
  exact ⟨h.1, h.2 (by decide)⟩

end HmacClient

/-! Section: Claim C10 -/

namespace HmacClient

def zClient : HMACClient := ⟨['k'], ⟨300, 33554432, 30⟩⟩

def zNow : PyDatetime := ⟨2024, 1, 1, 0, 0, 5, 0, some 0⟩

def zTs : List Char := "2024-01-01T00:00:05".toList

/-- The correct hash for the `Z`-suffixed timestamp string. -/
def zHash : List Char :=
  hexEncode (hmacSha256 (utf8Encode ['k'])
    (utf8Encode ((zTs ++ ['Z']) ++ ':' :: (['n'] ++ ':' :: ['h']))))

set_option maxHeartbeats 4000000 in
/-- C10, original statement, refuted on its `verify256` half: the timestamp
string is embedded verbatim in the signed canonical message, so a hash valid
for the `Z`-suffixed timestamp is not valid for the `+00:00`-suffixed one
even though the freshness check treats them alike — at this concrete input
`verify256` answers true for the former and false for the latter. -/
theorem C10_counterexample :
    verify256 zClient zNow [104] zHash (zTs ++ ['Z']) ['n'] = .ok true ∧
    verify256 zClient zNow [104] zHash (zTs ++ "+00:00".toList) ['n'] = .ok false := by
  constructor <;> rfl

/-- C10, amended: the timestamp check `_verify_timestamp` treats a timestamp
ending in `Z` identically to the same string with `Z` replaced by `+00:00`
(so Go-style RFC 3339 timestamps pass the freshness check on a par with
explicit-offset ones), but `verify256` as a whole may differ on the two
forms because the timestamp text is part of the signed message. -/
theorem C10_verify_timestamp_Z_equiv (c : HMACClient) (now : PyDatetime) (t : List Char) :
    verify_timestamp c now (t ++ ['Z']) = verify_timestamp c now (t ++ "+00:00".toList) := by
  unfold verify_timestamp
  rw [replaceZ_append, replaceZ_append,
    show replaceZ ['Z'] = "+00:00".toList from rfl,
    show replaceZ ("+00:00".toList) = "+00:00".toList from rfl]

end HmacClient
